import Mathlib

/-!
Verification development for the event-telemetry pipeline of the AIAI
repository.  The definitions below are a shallow embedding of
`frontend/src/services/eventTracker.ts` (the Event Telemetry Client and the
SQL Event Classifier) and — where the repository ships only callers and test
documentation, not the implementation — a model of the Session Phase
Controller taken from the specification.

Modelling conventions:
* JavaScript is single threaded; the `async` delivery loop of
  `EventTracker.processQueue` interleaves with other handlers only at
  `await` points.  We therefore model the client as a state machine whose
  transitions (`Action`) are: the public operations, one iteration of the
  delivery loop (with the transport outcome as an oracle bit), the idle
  timer callback, and the passage of time.
* `Date.now()` becomes an explicit `now : Nat` clock; `setTimeout` becomes
  an absolute deadline `idleDeadline : Option Nat`, and the callback is the
  `timerFire` transition, enabled once `now` has reached the deadline.
* `uuidv4()` (the fresh `client_id` stamped on every event) becomes a
  monotone counter `nextClientId`; the delivered events (`apiService.logEvent`
  calls that succeeded) are accumulated in `store`, standing for the Event
  Store's per-session log.
* Strings are treated as their character lists; `toUpperCase` is modelled by
  `Char.toUpper` (the inputs of interest are ASCII).
-/

/-- The closed union of event type literals from `eventTracker.ts`. -/
inductive EventType where
  | SESSION_START | SESSION_PAUSED | SESSION_RESUMED | PHASE_SUBMITTED
  | INTERVIEW_STARTED | SESSION_COMPLETED | SESSION_ABANDONED
  | CODE_EDIT | CODE_RUN | CODE_DELETED | CODE_RESTORED | COMMENT_ADDED
  | COPY_PASTE_DETECTED
  | SQL_RUN | QUERY_MODIFIED | QUERY_OPTIMIZED | QUERY_SUBMITTED
  | SYNTAX_ERROR | TABLE_JOINED | AGGREGATE_USED | SUBQUERY_USED
  | GROUPING_APPLIED | FILTER_APPLIED | WINDOW_FUNCTION_USED
  | RUN_RESULT | ERROR_OCCURRED | ERROR_RESOLVED | RESULT_VALIDATED
  | RESULT_COMPARED | OUTLIER_DETECTED | NULL_HANDLED
  | DATA_VIEW | SCHEMA_EXPLORED | TABLE_PREVIEWED | DATA_QUALITY_CHECKED
  | AI_PROMPT | AI_RESPONSE | AI_RESPONSE_USED | AI_CODE_COPIED
  | AI_CODE_MODIFIED | AI_HINT_REQUESTED | AI_HELP_ESCALATION | HELP_DECLINED
  | INTERVIEW_QUESTION | INTERVIEW_ANSWER | INSIGHT_SHARED
  | APPROACH_EXPLAINED | FOLLOWUP_ANSWERED
  | APPROACH_CHANGED | HYPOTHESIS_FORMED | VALIDATION_ATTEMPT
  | DEAD_END_REACHED | BREAKTHROUGH | BACKTRACKED
  | IDLE_GAP | FOCUS_LOST | FOCUS_REGAINED | PAUSE_DETECTED | RUSH_DETECTED
  | TIME_WARNING_SHOWN
  | NOTEBOOK_CELL_ADDED | NOTEBOOK_CELL_DELETED | CELL_REORDERED
  | RESULT_EVALUATED
  | CHART_CREATED
deriving DecidableEq, Repr

/-- A scalar metadata value (`Record<string, any>` values used by the
tracker are strings or numbers). -/
inductive MetaVal where
  | str (s : String)
  | num (n : Nat)
deriving DecidableEq, Repr

/-- `EventData` from `eventTracker.ts`, with the two fields `trackEvent`
spreads into `event_metadata` lifted out: `clientId` models the fresh
`client_id: uuidv4()` (a monotone counter stands in for uuid freshness) and
`stampedAt` models `timestamp: new Date().toISOString()`. -/
structure EventData where
  type : EventType
  clientId : Nat
  stampedAt : Nat
  meta : List (String × MetaVal)
deriving DecidableEq, Repr

/-- One successfully acknowledged `apiService.logEvent` call: what the Event
Store received. -/
structure StoredEvent where
  session_id : String
  event : EventData
deriving DecidableEq, Repr

/-- The mutable fields of the `EventTracker` class plus the explicit clock,
the uuid counter and the Event Store log. `idleDeadline` is the absolute
time at which the pending `setTimeout` of `resetIdleTimer` fires (`none`
when no timer is pending). -/
structure TrackerState where
  sessionId : Option String
  eventQueue : List EventData
  isProcessing : Bool
  lastActivityTime : Nat
  idleDeadline : Option Nat
  now : Nat
  nextClientId : Nat
  store : List StoredEvent
deriving DecidableEq, Repr

/-- `idleThreshold = 5000` (5 seconds of inactivity). -/
def idleThreshold : Nat := 5000

/-- The tracker at construction time (`new EventTracker()`), with the epoch
as `Date.now()`. -/
def initState : TrackerState :=
  { sessionId := none, eventQueue := [], isProcessing := false,
    lastActivityTime := 0, idleDeadline := none, now := 0,
    nextClientId := 0, store := [] }

/-- `resetIdleTimer`: clear any pending timeout and schedule the idle
callback `idleThreshold` from now. -/
def resetIdleTimer (s : TrackerState) : TrackerState :=
  { s with idleDeadline := some (s.now + idleThreshold) }

/-- `updateActivity`: stamp `lastActivityTime = Date.now()` and reset the
idle timer. -/
def updateActivity (s : TrackerState) : TrackerState :=
  resetIdleTimer { s with lastActivityTime := s.now }

/-- Entry of `processQueue` up to its first `await`: return if the queue is
empty or a loop is already draining, otherwise raise the `isProcessing`
flag (the loop body itself runs as `deliverStep` transitions). -/
def beginProcessing (s : TrackerState) : TrackerState :=
  if s.eventQueue.isEmpty || s.isProcessing then s
  else { s with isProcessing := true }

/-- `if (!this.isProcessing) { await this.processQueue(); }` at the end of
`trackEvent`. -/
def beginIfIdle (s : TrackerState) : TrackerState :=
  if s.isProcessing then s else beginProcessing s

/-- `trackEvent`: warn and return when no session is bound; otherwise build
the event (stamping capture time and a fresh client id), push it on the
queue, update activity, and start the delivery loop if none is draining. -/
def trackEvent (t : EventType) (m : List (String × MetaVal))
    (s : TrackerState) : TrackerState :=
  match s.sessionId with
  | none => s
  | some _ =>
    beginIfIdle (updateActivity
      { s with
        eventQueue := s.eventQueue ++
          [{ type := t, clientId := s.nextClientId, stampedAt := s.now,
             meta := m }],
        nextClientId := s.nextClientId + 1 })

/-- One iteration of the `while` loop of `processQueue`, with the transport
outcome `ok` of `apiService.logEvent` resolved externally.  Mirrors the
source: shift the head; if a session is bound, deliver it — on success
continue (exiting with `isProcessing = false` when the queue is empty), on
failure unshift it back and `break` out of the loop; if no session is bound
(`if (event && this.sessionId)` fails) the shifted event is skipped and the
loop continues.  A `deliverStep` with no active loop is a no-op. -/
def deliverStep (ok : Bool) (s : TrackerState) : TrackerState :=
  if s.isProcessing then
    match s.eventQueue with
    | [] => { s with isProcessing := false }
    | e :: rest =>
      match s.sessionId with
      | none =>
        if rest.isEmpty then { s with eventQueue := rest, isProcessing := false }
        else { s with eventQueue := rest }
      | some sid =>
        if ok then
          if rest.isEmpty then
            { s with eventQueue := rest,
                     store := s.store ++ [{ session_id := sid, event := e }],
                     isProcessing := false }
          else
            { s with eventQueue := rest,
                     store := s.store ++ [{ session_id := sid, event := e }] }
        else { s with isProcessing := false }
  else s

/-- The `setTimeout` callback installed by `resetIdleTimer`: once the
deadline has been reached it fires exactly once (the deadline is cleared)
and tracks a synthetic `IDLE_GAP` event carrying the elapsed idle
duration.  Note that it goes through the ordinary `trackEvent`. -/
def timerFire (s : TrackerState) : TrackerState :=
  match s.idleDeadline with
  | none => s
  | some d =>
    if s.now < d then s
    else
      trackEvent .IDLE_GAP
        [("idle_duration", .num (s.now - s.lastActivityTime))]
        { s with idleDeadline := none }

/-- `EventTracker.initialize` (renamed for Lean): bind the session id and
start idle tracking (`startIdleTracking` is just `resetIdleTimer`).  The
source touches nothing else: in particular neither `eventQueue` nor
`lastActivityTime` is reset. -/
def initTracker (sid : String) (s : TrackerState) : TrackerState :=
  resetIdleTimer { s with sessionId := some sid }

/-- `EventTracker.cleanup`: cancel the idle timer, unbind the session and
discard the pending queue. -/
def cleanup (s : TrackerState) : TrackerState :=
  { s with idleDeadline := none, sessionId := none, eventQueue := [] }

/-- The events of the client's single-threaded execution: the public calls,
one delivery-loop iteration with its transport outcome, the timer callback,
and the passage of time. -/
inductive TAction where
  | init (sid : String)
  | track (t : EventType) (m : List (String × MetaVal))
  | deliver (ok : Bool)
  | timerFire
  | advance (dt : Nat)
  | cleanup
deriving Repr

/-- Interpret one action. -/
def applyA : TAction → TrackerState → TrackerState
  | .init sid, s => initTracker sid s
  | .track t m, s => trackEvent t m s
  | .deliver ok, s => deliverStep ok s
  | .timerFire, s => timerFire s
  | .advance dt, s => { s with now := s.now + dt }
  | .cleanup, s => cleanup s

/-- Run a whole trace of actions. -/
def run (acts : List TAction) (s : TrackerState) : TrackerState :=
  acts.foldl (fun st a => applyA a st) s

/-! ## The SQL Event Classifier (`trackSQLComplexity`) -/

/-- Does `pat` occur at the very start of `l` (exact character match)?
Used to model JavaScript `String.prototype.includes`. -/
def startsHere : List Char → List Char → Bool
  | [], _ => true
  | _ :: _, [] => false
  | p :: ps, c :: cs => (p == c) && startsHere ps cs

/-- `haystack.includes(pat)` over character lists. -/
def containsSub (pat : List Char) : List Char → Bool
  | [] => startsHere pat []
  | c :: cs => startsHere pat (c :: cs) || containsSub pat cs

/-- `query.toUpperCase()` (ASCII model). -/
def upperOf (q : String) : List Char := q.data.map Char.toUpper

/-- The characters of the query-start keyword `SELECT`. -/
def selChars : List Char := ['S', 'E', 'L', 'E', 'C', 'T']

/-- Does `SELECT` match case-insensitively at the start of `l`?  This is one
step of the `/SELECT/gi` regex scan (`p` chars are uppercase). -/
def ciStarts : List Char → List Char → Bool
  | [], _ => true
  | _ :: _, [] => false
  | p :: ps, c :: cs => (c.toUpper == p) && ciStarts ps cs

/-- The scan of `query.match(/SELECT/gi)`, counting non-overlapping
case-insensitive occurrences of `SELECT` left to right and resuming after
the end of each match, exactly as a global regex does.  The `fuel`
argument, an upper bound on the remaining scan steps, only makes the
recursion structural (each match consumes six characters: the head and
five dropped ones); it is always instantiated with the list length. -/
def ciCountF : Nat → List Char → Nat
  | _, [] => 0
  | 0, _ :: _ => 0
  | fuel + 1, c :: cs =>
    if ciStarts selChars (c :: cs) then 1 + ciCountF fuel (cs.drop 5)
    else ciCountF fuel cs

/-- `(query.match(/SELECT/gi) || []).length`. -/
def ciCount (l : List Char) : Nat := ciCountF l.length l

/-- The record of structural tags computed by `trackSQLComplexity`. -/
structure SQLComplexity where
  has_join : Bool
  has_aggregate : Bool
  has_subquery : Bool
  has_groupby : Bool
  has_where : Bool
  has_window : Bool
deriving DecidableEq, Repr

/-- The tag computation of `trackSQLComplexity` (lines computing the
`complexity` object): substring tests on the uppercased query, a regex
alternation for aggregates and window functions, and the
more-than-one-`SELECT` heuristic for subqueries. -/
def classifySQL (query : String) : SQLComplexity :=
  { has_join := containsSub "JOIN".data (upperOf query)
  , has_aggregate :=
      containsSub "COUNT".data (upperOf query) ||
      containsSub "SUM".data (upperOf query) ||
      containsSub "AVG".data (upperOf query) ||
      containsSub "MAX".data (upperOf query) ||
      containsSub "MIN".data (upperOf query)
  , has_subquery := decide (1 < ciCount query.data)
  , has_groupby := containsSub "GROUP BY".data (upperOf query)
  , has_where := containsSub "WHERE".data (upperOf query)
  , has_window :=
      containsSub "OVER".data (upperOf query) ||
      containsSub "PARTITION BY".data (upperOf query) }

/-- `query.substring(0, 100)`: the excerpt stored as `query_snippet`. -/
def snippetOf (query : String) : String := { data := query.data.take 100 }

/-- The ordered sequence of synthetic complexity events tracked by
`trackSQLComplexity` (one `trackEvent` call per positive tag, in source
order, each carrying the bounded excerpt). -/
def emitSQL (query : String) : List (EventType × String) :=
  (if (classifySQL query).has_join then [(.TABLE_JOINED, snippetOf query)] else []) ++
  (if (classifySQL query).has_aggregate then [(.AGGREGATE_USED, snippetOf query)] else []) ++
  (if (classifySQL query).has_subquery then [(.SUBQUERY_USED, snippetOf query)] else []) ++
  (if (classifySQL query).has_groupby then [(.GROUPING_APPLIED, snippetOf query)] else []) ++
  (if (classifySQL query).has_where then [(.FILTER_APPLIED, snippetOf query)] else []) ++
  (if (classifySQL query).has_window then [(.WINDOW_FUNCTION_USED, snippetOf query)] else [])

/-- `trackSQLComplexity` as a whole: compute the tags, track one synthetic
event per positive tag through the ordinary `trackEvent` path, and return
the tag record. -/
def trackSQLComplexityM (query : String) (s : TrackerState) :
    SQLComplexity × TrackerState :=
  (classifySQL query,
   (emitSQL query).foldl
     (fun st p => trackEvent p.1 [("query_snippet", .str p.2)] st) s)

/-! ## The Session Phase Controller (modelled from the spec) -/

/-- Modelled from the spec: the session phase enumeration of §3
(`coding → interview → completed`).  The backend implementing the Session
Phase Controller is not among the provided source files; only the frontend
API client and the test documentation reference its `submit` endpoint. -/
inductive Phase where
  | coding
  | interview
  | completed
deriving DecidableEq, Repr

/-- Modelled from the spec: the session fields governed by the Phase
Controller (§3, §4.3). -/
structure PCSession where
  phase : Phase
  submitted_at : Option Nat
  eventLog : List EventType
deriving DecidableEq, Repr

/-- Modelled from the spec: the error taxonomy entry reported when a phase
transition is invoked out of order (§7). -/
inductive PCError where
  | InvalidTransition
deriving DecidableEq, Repr

/-- Modelled from the spec: `submit(session)` of §4.3.  Valid only when
`phase == coding`; then, atomically, it sets `phase = interview`, sets
`submitted_at = now`, and emits `PHASE_SUBMITTED`, `INTERVIEW_STARTED` and
the first `INTERVIEW_QUESTION` in that order.  Invoked in any other phase
it fails with `InvalidTransition` and performs no side effect, so the
returned session is the argument unchanged. -/
def submit (now : Nat) (s : PCSession) : Option PCError × PCSession :=
  match s.phase with
  | .coding =>
    (none,
     { phase := .interview, submitted_at := some now,
       eventLog := s.eventLog ++
         [.PHASE_SUBMITTED, .INTERVIEW_STARTED, .INTERVIEW_QUESTION] })
  | .interview => (some .InvalidTransition, s)
  | .completed => (some .InvalidTransition, s)

/-! ## The FIFO delivery invariant -/

/-- The client ids of all events the trace has produced, in
delivered-then-pending order: the Event Store log followed by the pending
queue. -/
def allIds (s : TrackerState) : List Nat :=
  s.store.map (fun d => d.event.clientId) ++ s.eventQueue.map (fun e => e.clientId)

/-- The delivery-order invariant: client ids (assigned in enqueue order)
are strictly increasing along the store followed by the queue, and all of
them are below the id counter. -/
def TInv (s : TrackerState) : Prop :=
  List.Pairwise (· < ·) (allIds s) ∧ ∀ c ∈ allIds s, c < s.nextClientId

lemma pairwise_snoc_of_lt (l : List Nat) (n : Nat)
    (hl : List.Pairwise (· < ·) l) (hn : ∀ c ∈ l, c < n) :
    List.Pairwise (· < ·) (l ++ [n]) := by
  rw [List.pairwise_append]
  refine ⟨hl, List.pairwise_singleton _ _, ?_⟩
  intro a ha b hb
  rw [List.mem_singleton] at hb
  subst hb
  exact hn a ha

lemma inv_initTracker (sid : String) (s : TrackerState) (h : TInv s) :
    TInv (initTracker sid s) := by
  simpa [initTracker, resetIdleTimer, TInv, allIds] using h

lemma tinv_of_eq (s s2 : TrackerState) (h : TInv s)
    (hids : allIds s2 = allIds s) (hnext : s2.nextClientId = s.nextClientId) :
    TInv s2 := by
  rw [TInv, hids, hnext]; exact h

lemma tinv_of_sub (s s2 : TrackerState) (h : TInv s)
    (hids : List.Sublist (allIds s2) (allIds s))
    (hnext : s2.nextClientId = s.nextClientId) : TInv s2 :=
  ⟨h.1.sublist hids, fun c hc => hnext ▸ h.2 c (hids.subset hc)⟩

lemma inv_cleanup (s : TrackerState) (h : TInv s) : TInv (cleanup s) := by
  refine tinv_of_sub s _ h ?_ rfl
  simp only [cleanup, allIds, List.map_nil, List.append_nil]
  exact List.sublist_append_left _ _

lemma allIds_trackEvent_some (t : EventType) (m : List (String × MetaVal))
    (s : TrackerState) (sid : String) (h : s.sessionId = some sid) :
    allIds (trackEvent t m s) = allIds s ++ [s.nextClientId] ∧
      (trackEvent t m s).nextClientId = s.nextClientId + 1 := by
  simp only [trackEvent, h, beginIfIdle, beginProcessing, updateActivity,
    resetIdleTimer, allIds]
  constructor
  · split <;> [skip; split] <;> simp
  · split <;> [skip; split] <;> simp

lemma inv_trackEvent (t : EventType) (m : List (String × MetaVal))
    (s : TrackerState) (h : TInv s) : TInv (trackEvent t m s) := by
  obtain ⟨h1, h2⟩ := h
  cases hs : s.sessionId with
  | none => simpa [trackEvent, hs] using ⟨h1, h2⟩
  | some sid =>
    obtain ⟨hids, hnext⟩ := allIds_trackEvent_some t m s sid hs
    rw [TInv, hids, hnext]
    refine ⟨pairwise_snoc_of_lt _ _ h1 h2, ?_⟩
    intro c hc
    rw [List.mem_append, List.mem_singleton] at hc
    rcases hc with hc | hc
    · exact (h2 c hc).trans (Nat.lt_succ_self _)
    · subst hc; exact Nat.lt_succ_self _

lemma inv_deliverStep (ok : Bool) (s : TrackerState) (h : TInv s) :
    TInv (deliverStep ok s) := by
  by_cases hp : s.isProcessing
  case neg => simpa [deliverStep, hp] using h
  case pos =>
    cases hq : s.eventQueue with
    | nil =>
      refine tinv_of_eq s _ h ?_ ?_ <;> simp [deliverStep, hp, hq, allIds]
    | cons e rest =>
      cases hs : s.sessionId with
      | none =>
        refine tinv_of_sub s _ h ?_ ?_ <;>
          simp only [deliverStep, hp, if_true, hq, hs] <;> split <;>
            simp [allIds, hq]
      | some sid =>
        cases ok with
        | false =>
          refine tinv_of_eq s _ h ?_ ?_ <;>
            simp [deliverStep, hp, hq, hs, allIds]
        | true =>
          refine tinv_of_eq s _ h ?_ ?_ <;>
            simp only [deliverStep, hp, if_true, hq, hs] <;> split <;>
              simp [allIds, hq]

lemma inv_timerFire (s : TrackerState) (h : TInv s) : TInv (timerFire s) := by
  unfold timerFire
  split
  · exact h
  · split
    · exact h
    · exact inv_trackEvent _ _ _ (by simpa [TInv, allIds] using h)

lemma inv_applyA (a : TAction) (s : TrackerState) (h : TInv s) :
    TInv (applyA a s) := by
  cases a with
  | init sid => exact inv_initTracker sid s h
  | track t m => exact inv_trackEvent t m s h
  | deliver ok => exact inv_deliverStep ok s h
  | timerFire => exact inv_timerFire s h
  | advance dt => exact ⟨by simpa [allIds] using h.1, fun c hc => h.2 c (by simpa [allIds] using hc)⟩
  | cleanup => exact inv_cleanup s h

lemma inv_run (acts : List TAction) (s : TrackerState) (h : TInv s) :
    TInv (run acts s) := by
  induction acts generalizing s with
  | nil => exact h
  | cons a rest ih => exact ih (applyA a s) (inv_applyA a s h)

lemma inv_initState : TInv initState := by
  constructor <;> simp [TInv, allIds, initState]

instance decTInv (s : TrackerState) : Decidable (TInv s) := by
  unfold TInv; infer_instance

/-! ## Claim theorems: the Telemetry Client -/

/-- C1: For every session and every sequence of trackEvent calls, the
delivery loop delivers events to the Event Store in exactly the order they
were enqueued (strict FIFO).  Client ids are assigned by a monotone counter
at enqueue time, so enqueue order is client-id order; in every reachable
state of the client the Event Store log (in delivery order) followed by the
pending queue (head first) is strictly increasing in client id.  Hence
delivered events — globally, and a fortiori within one session — appear in
enqueue order, every pending event (including a failed head, which
`deliverStep false` leaves in place) is enqueued after everything already
delivered, and no later event is ever delivered before an earlier one. -/
theorem c1_delivery_fifo (acts : List TAction) :
    List.Pairwise (· < ·) (allIds (run acts initState)) :=
  (inv_run acts initState inv_initState).1

/-- C2: If the first delivery attempt for an event fails and a later
(second) attempt succeeds, exactly one copy of the event reaches the Event
Store, in the correct position.  From any invariant-satisfying state whose
delivery loop is about to attempt the head event `e`: the failed attempt
removes nothing (the queue still starts with `e`) and stores nothing; after
any interleaved activity `mid`, the succeeding attempt appends exactly
`e` to the store, removes it from the queue, and the store then contains
exactly one event with `e`'s client id. -/
theorem c2_retry_exactly_once (s : TrackerState) (sid sid2 : String)
    (e : EventData) (rest rest2 : List EventData) (mid : List TAction)
    (hInv : TInv s) (hq : s.eventQueue = e :: rest)
    (hp : s.isProcessing = true) (hs : s.sessionId = some sid)
    (hs2 : (run mid (deliverStep false s)).sessionId = some sid2)
    (hq2 : (run mid (deliverStep false s)).eventQueue = e :: rest2)
    (hp2 : (run mid (deliverStep false s)).isProcessing = true) :
    (deliverStep false s).eventQueue = e :: rest ∧
    (deliverStep false s).store = s.store ∧
    (deliverStep true (run mid (deliverStep false s))).store =
      (run mid (deliverStep false s)).store ++
        [{ session_id := sid2, event := e }] ∧
    (deliverStep true (run mid (deliverStep false s))).eventQueue = rest2 ∧
    List.countP (fun d => d.event.clientId == e.clientId)
      (deliverStep true (run mid (deliverStep false s))).store = 1 := by
  have hfq : (deliverStep false s).eventQueue = e :: rest := by
    simp [deliverStep, hp, hq, hs]
  have hfs : (deliverStep false s).store = s.store := by
    simp [deliverStep, hp, hq, hs]
  have hInv2 : TInv (run mid (deliverStep false s)) :=
    inv_run mid _ (inv_deliverStep false s hInv)
  refine ⟨hfq, hfs, ?_⟩
  generalize hgen : run mid (deliverStep false s) = s2 at hs2 hq2 hp2 hInv2
  clear hgen
  have hstore : (deliverStep true s2).store =
      s2.store ++ [{ session_id := sid2, event := e }] := by
    simp only [deliverStep, hp2, if_true, hq2, hs2]
    split <;> rfl
  have hqueue : (deliverStep true s2).eventQueue = rest2 := by
    simp only [deliverStep, hp2, if_true, hq2, hs2]
    split <;> rfl
  refine ⟨hstore, hqueue, ?_⟩
  have hzero : List.countP (fun d => d.event.clientId == e.clientId)
      s2.store = 0 := by
    rw [List.countP_eq_zero]
    intro d hd
    have hmemd : d.event.clientId ∈
        s2.store.map (fun x => x.event.clientId) :=
      List.mem_map_of_mem _ hd
    have hcross := (List.pairwise_append.mp
      (by simpa [allIds] using hInv2.1)).2.2
    have hlt : d.event.clientId < e.clientId := by
      refine hcross _ hmemd e.clientId ?_
      rw [hq2]
      exact List.mem_cons_self _ _
    simp [Nat.ne_of_lt hlt]
  rw [hstore, List.countP_append, hzero]
  simp

/-- C2 witness: a concrete two-event trace in which the first attempt for
the first tracked event fails, a second event is tracked meanwhile, and the
retry succeeds: the store then holds exactly one copy of the event. -/
theorem c2_retry_exactly_once_witness :
    List.countP (fun d => d.event.clientId == (0 : Nat))
      (deliverStep true (run [.track .CODE_RUN []]
        (deliverStep false
          (run [.init "A", .track .CODE_EDIT []] initState)))).store = 1 := by
  have h := c2_retry_exactly_once
    (run [.init "A", .track .CODE_EDIT []] initState) "A" "A"
    { type := .CODE_EDIT, clientId := 0, stampedAt := 0, meta := [] }
    [] [{ type := .CODE_RUN, clientId := 1, stampedAt := 0, meta := [] }]
    [.track .CODE_RUN []]
    (by decide) (by decide) (by decide) (by decide)
    (by decide) (by decide) (by decide)
  exact h.2.2.2.2

/-- C3: the claim states that a second `initialize` with a different session
id fully resets the queue and activity clock, so no event enqueued under
the previous session is delivered under the new session id.  The code does
not do this: `initialize` only rebinds `sessionId` and restarts the idle
timer.  Concretely: an event tracked under session "A" whose delivery
attempt failed is still pending after `initialize("B")`, and the next drain
delivers it to the Event Store under `session_id = "B"`. -/
theorem c3_cross_session_leakage :
    (run [.init "A", .track .CODE_EDIT [], .deliver false, .init "B"]
        initState).eventQueue =
      [{ type := .CODE_EDIT, clientId := 0, stampedAt := 0, meta := [] }] ∧
    (run [.init "A", .track .CODE_EDIT [], .deliver false, .init "B",
        .track .CODE_RUN [], .deliver true, .deliver true] initState).store =
      [{ session_id := "B",
         event := { type := .CODE_EDIT, clientId := 0, stampedAt := 0,
                    meta := [] } },
       { session_id := "B",
         event := { type := .CODE_RUN, clientId := 1, stampedAt := 0,
                    meta := [] } }] ∧
    (run [.init "A", .track .CODE_EDIT []] initState).sessionId =
      some "A" := by
  refine ⟨by decide, by decide, by decide⟩

/-- C4 counterexample: the claim states that the synthetic `IDLE_GAP` event
does not reset the idle timer or the activity clock and that the timer
never fires twice for the same idle interval.  In the code the callback
tracks `IDLE_GAP` through `trackEvent`, which calls `updateActivity`:
after a fire at t=5000 the activity clock reads 5000 and the timer is
re-armed for t=10000, and with no further real activity a second `IDLE_GAP`
is produced at t=10000 — two fires for one continuous idle interval. -/
theorem c4_idle_counterexample :
    (run [.init "A", .advance 5000, .timerFire] initState).idleDeadline =
      some 10000 ∧
    (run [.init "A", .advance 5000, .timerFire] initState).lastActivityTime =
      5000 ∧
    List.countP (fun e => e.type == EventType.IDLE_GAP)
      (run [.init "A", .advance 5000, .timerFire, .advance 5000, .timerFire]
        initState).eventQueue = 2 := by
  refine ⟨by decide, by decide, by decide⟩

/-- C4 (amended): when the idle timer fires (a deadline is pending and has
been reached, with a session bound), the client appends one synthetic
`IDLE_GAP` event carrying the elapsed idle duration, and — because the
synthetic event goes through the ordinary `trackEvent` path — it resets the
activity clock to the fire time and re-arms the timer one `idleThreshold`
later, so during a continuous idle period the timer fires once per
threshold interval rather than once in total. -/
theorem c4_idle_rearm (s : TrackerState) (sid : String) (d : Nat)
    (hs : s.sessionId = some sid) (hd : s.idleDeadline = some d)
    (hnow : d ≤ s.now) :
    (timerFire s).idleDeadline = some (s.now + idleThreshold) ∧
    (timerFire s).lastActivityTime = s.now ∧
    (timerFire s).eventQueue = s.eventQueue ++
      [{ type := .IDLE_GAP, clientId := s.nextClientId, stampedAt := s.now,
         meta := [("idle_duration", .num (s.now - s.lastActivityTime))] }] := by
  have hlt : ¬ s.now < d := Nat.not_lt.mpr hnow
  simp only [timerFire, hd, hlt, if_false, trackEvent, hs, beginIfIdle,
    beginProcessing, updateActivity, resetIdleTimer]
  refine ⟨?_, ?_, ?_⟩ <;> split <;> simp_all

/-- C4 witness: the amended behaviour at a concrete fire: session "A",
timer armed at t=0 for t=5000, firing at t=5000. -/
theorem c4_idle_rearm_witness :
    (timerFire (run [.init "A", .advance 5000] initState)).idleDeadline =
      some 10000 ∧
    (timerFire (run [.init "A", .advance 5000] initState)).lastActivityTime =
      5000 ∧
    (timerFire (run [.init "A", .advance 5000] initState)).eventQueue =
      [{ type := .IDLE_GAP, clientId := 0, stampedAt := 5000,
         meta := [("idle_duration", .num 5000)] }] := by
  have h := c4_idle_rearm (run [.init "A", .advance 5000] initState) "A" 5000
    (by decide) (by decide) (by decide)
  exact h

/-- C10: calling `trackEvent` when no session is bound (before `initialize`,
or after `cleanup`, which clears the bound session id) is a no-op: the
event is not enqueued, nothing is delivered, and the whole client state —
queue, activity clock, timer, id counter and store — is unchanged. -/
theorem c10_track_without_session (s : TrackerState) (t : EventType)
    (m : List (String × MetaVal)) (h : s.sessionId = none) :
    trackEvent t m s = s := by
  simp [trackEvent, h]

/-- C10 witness: after `initialize("A")` followed by `cleanup()`, tracking
an event leaves the client state exactly as it was. -/
theorem c10_track_without_session_witness :
    trackEvent .CODE_EDIT [] (run [.init "A", .cleanup] initState) =
      run [.init "A", .cleanup] initState :=
  c10_track_without_session _ _ _ (by decide)

/-! ## Claim theorems: the Phase Controller and the Classifier -/

/-- C5: `submit` invoked when the session's phase is not `coding` (so in
`interview` or `completed`) always fails with `InvalidTransition` and
performs no side effect: the returned session — its `submitted_at`, its
`phase` and its event log — is the argument unchanged. -/
theorem c5_submit_invalid_transition (s : PCSession) (now : Nat)
    (h : s.phase ≠ Phase.coding) :
    (submit now s).1 = some PCError.InvalidTransition ∧
      (submit now s).2 = s := by
  cases hp : s.phase with
  | coding => exact absurd hp h
  | interview => simp [submit, hp]
  | completed => simp [submit, hp]

/-- C5 witness: submitting a session already in the interview phase fails
with `InvalidTransition` and leaves the session untouched. -/
theorem c5_submit_invalid_transition_witness :
    (submit 42 ⟨.interview, some 7, [.SESSION_START]⟩).1 =
      some PCError.InvalidTransition ∧
    (submit 42 ⟨.interview, some 7, [.SESSION_START]⟩).2 =
      ⟨.interview, some 7, [.SESSION_START]⟩ :=
  c5_submit_invalid_transition _ 42 (by decide)

/-- C6 counterexample: the claim states that the excerpt carried by each
emitted complexity event is never the full input text; but
`query.substring(0, 100)` is the whole query whenever it has at most 100
characters.  For the input "JOIN a" the single emitted event carries
exactly the full input as its snippet. -/
theorem c6_excerpt_counterexample :
    ∃ p ∈ emitSQL "JOIN a", p.2 = "JOIN a" := by decide

/-- C6 (amended): for every input text, the emit step produces exactly one
synthetic event per positive tag — `TABLE_JOINED` for `has_join`,
`AGGREGATE_USED` for `has_aggregate`, `SUBQUERY_USED` for `has_subquery`,
`GROUPING_APPLIED` for `has_groupby`, `FILTER_APPLIED` for `has_where`,
`WINDOW_FUNCTION_USED` for `has_window` — and each event's metadata carries
the first 100 characters of the input: an excerpt of bounded length
(at most 100), which equals the full input exactly when the input has at
most 100 characters. -/
theorem c6_emit_per_tag_bounded (q : String) :
    List.countP (fun p => p.1 == EventType.TABLE_JOINED) (emitSQL q) =
      (if (classifySQL q).has_join then 1 else 0) ∧
    List.countP (fun p => p.1 == EventType.AGGREGATE_USED) (emitSQL q) =
      (if (classifySQL q).has_aggregate then 1 else 0) ∧
    List.countP (fun p => p.1 == EventType.SUBQUERY_USED) (emitSQL q) =
      (if (classifySQL q).has_subquery then 1 else 0) ∧
    List.countP (fun p => p.1 == EventType.GROUPING_APPLIED) (emitSQL q) =
      (if (classifySQL q).has_groupby then 1 else 0) ∧
    List.countP (fun p => p.1 == EventType.FILTER_APPLIED) (emitSQL q) =
      (if (classifySQL q).has_where then 1 else 0) ∧
    List.countP (fun p => p.1 == EventType.WINDOW_FUNCTION_USED) (emitSQL q) =
      (if (classifySQL q).has_window then 1 else 0) ∧
    (emitSQL q).all (fun p => p.2 == snippetOf q) = true ∧
    (snippetOf q).length ≤ 100 := by
  have hlen : (snippetOf q).length ≤ 100 := by
    simp only [snippetOf, String.length]
    exact List.length_take_le 100 q.data
  unfold emitSQL
  rcases classifySQL q with ⟨j, a, sq, g, w, wn⟩
  simp only
  cases j <;> cases a <;> cases sq <;> cases g <;> cases w <;> cases wn <;>
    simp_all

/-- C7: the classifier tag computation is a pure, total, deterministic
function of the input text alone: `trackSQLComplexity`'s returned tags are
exactly `classifySQL` of the input regardless of tracker state, two calls
on identical text from arbitrary different prior states yield identical
tags, and empty input yields the all-false record rather than an error. -/
theorem c7_classifier_pure_deterministic :
    (∀ (q : String) (s1 s2 : TrackerState),
        (trackSQLComplexityM q s1).1 = classifySQL q ∧
        (trackSQLComplexityM q s1).1 = (trackSQLComplexityM q s2).1) ∧
    classifySQL "" =
      { has_join := false, has_aggregate := false, has_subquery := false,
        has_groupby := false, has_where := false, has_window := false } :=
  ⟨fun _ _ _ => ⟨rfl, rfl⟩, by decide⟩

/-- C8: the two worked examples from the spec: `"SELECT * FROM t"`
classifies with every tag false, and the customers/orders aggregation query
classifies with `has_join`, `has_aggregate` and `has_groupby` true and
`has_subquery` false. -/
theorem c8_classifier_examples :
    classifySQL "SELECT * FROM t" =
      { has_join := false, has_aggregate := false, has_subquery := false,
        has_groupby := false, has_where := false, has_window := false } ∧
    (classifySQL "SELECT c.name, COUNT(o.id) FROM c LEFT JOIN o ON c.id=o.cid GROUP BY c.name HAVING COUNT(o.id)>5").has_join = true ∧
    (classifySQL "SELECT c.name, COUNT(o.id) FROM c LEFT JOIN o ON c.id=o.cid GROUP BY c.name HAVING COUNT(o.id)>5").has_aggregate = true ∧
    (classifySQL "SELECT c.name, COUNT(o.id) FROM c LEFT JOIN o ON c.id=o.cid GROUP BY c.name HAVING COUNT(o.id)>5").has_groupby = true ∧
    (classifySQL "SELECT c.name, COUNT(o.id) FROM c LEFT JOIN o ON c.id=o.cid GROUP BY c.name HAVING COUNT(o.id)>5").has_subquery = false := by
  refine ⟨by decide, by decide, by decide, by decide, by decide⟩

/-! ## The subquery heuristic (C9) -/

lemma ciStarts_length (p l : List Char) (h : ciStarts p l = true) :
    p.length ≤ l.length := by
  induction p generalizing l with
  | nil => simp
  | cons a ps ih =>
    cases l with
    | nil => simp [ciStarts] at h
    | cons c cs =>
      simp only [ciStarts, Bool.and_eq_true] at h
      exact Nat.succ_le_succ (ih cs h.2)

lemma ciStarts_getD (p l : List Char) (h : ciStarts p l = true) (k : Nat)
    (hk : k < p.length) : (l.getD k 'A').toUpper = p.getD k 'A' := by
  induction p generalizing l k with
  | nil => simp at hk
  | cons a ps ih =>
    cases l with
    | nil => simp [ciStarts] at h
    | cons c cs =>
      simp only [ciStarts, Bool.and_eq_true, beq_iff_eq] at h
      cases k with
      | zero => simpa using h.1
      | succ k1 =>
        simp only [List.getD_cons_succ]
        exact ih cs h.2 k1 (by simpa [Nat.succ_lt_succ_iff] using hk)

lemma getD_drop_zero (l : List Char) (d : Nat) (x : Char) :
    (l.drop d).getD 0 x = l.getD d x := by
  induction l generalizing d with
  | nil => simp
  | cons c cs ih =>
    cases d with
    | zero => simp
    | succ d1 => simp only [List.drop_succ_cons, List.getD_cons_succ]; exact ih d1

/-- `SELECT` cannot overlap itself: no case-insensitive match of `SELECT`
can begin strictly inside another one. -/
lemma no_self_overlap (m : List Char) (d : Nat) (hd1 : 1 ≤ d) (hd5 : d ≤ 5)
    (h1 : ciStarts selChars m = true)
    (h2 : ciStarts selChars (m.drop d) = true) : False := by
  have e1 : (m.getD d 'A').toUpper = selChars.getD d 'A' :=
    ciStarts_getD selChars m h1 d (by simp [selChars]; omega)
  have e2 : ((m.drop d).getD 0 'A').toUpper = selChars.getD 0 'A' :=
    ciStarts_getD selChars (m.drop d) h2 0 (by simp [selChars])
  rw [getD_drop_zero] at e2
  have hchars : selChars.getD d 'A' = selChars.getD 0 'A' := e1.symm.trans e2
  interval_cases d <;> exact absurd hchars (by decide)

/-- Two distinct case-insensitive matches of `SELECT` are at least six
characters apart. -/
lemma match_gap (l : List Char) (i j : Nat) (hij : i < j)
    (hi : ciStarts selChars (l.drop i) = true)
    (hj : ciStarts selChars (l.drop j) = true) : i + 6 ≤ j := by
  by_contra hcon
  push_neg at hcon
  have hdd : l.drop j = (l.drop i).drop (j - i) := by
    rw [List.drop_drop]
    congr 1
    omega
  exact no_self_overlap (l.drop i) (j - i) (by omega) (by omega) hi
    (hdd ▸ hj)

lemma ciCountF_pos (fuel : Nat) (l : List Char) (hf : l.length ≤ fuel)
    (i : Nat) (h : ciStarts selChars (l.drop i) = true) :
    1 ≤ ciCountF fuel l := by
  induction fuel generalizing l i with
  | zero =>
    rcases l with _ | ⟨c, cs⟩
    · rw [List.drop_nil] at h
      exact absurd h (by decide)
    · simp at hf
  | succ fuel ih =>
    rcases l with _ | ⟨c, cs⟩
    · rw [List.drop_nil] at h
      exact absurd h (by decide)
    · have hf2 : cs.length ≤ fuel := by simpa using hf
      cases i with
      | zero =>
        rw [List.drop_zero] at h
        simp [ciCountF, h]
      | succ i1 =>
        rw [List.drop_succ_cons] at h
        by_cases hc : ciStarts selChars (c :: cs) = true
        · simp [ciCountF, hc]
        · simp only [ciCountF, hc, if_false]
          exact ih cs hf2 i1 h

lemma exists_match_of_pos (fuel : Nat) (l : List Char)
    (h : 1 ≤ ciCountF fuel l) :
    ∃ i, ciStarts selChars (l.drop i) = true := by
  induction fuel generalizing l with
  | zero =>
    rcases l with _ | ⟨c, cs⟩ <;> simp [ciCountF] at h
  | succ fuel ih =>
    rcases l with _ | ⟨c, cs⟩
    · simp [ciCountF] at h
    · by_cases hc : ciStarts selChars (c :: cs) = true
      · exact ⟨0, by simpa using hc⟩
      · simp only [ciCountF, hc, if_false] at h
        obtain ⟨i, hi⟩ := ih cs h
        exact ⟨i + 1, by simpa [List.drop_succ_cons] using hi⟩

lemma exists_two_matches (fuel : Nat) (l : List Char)
    (h : 2 ≤ ciCountF fuel l) :
    ∃ i j, i < j ∧ ciStarts selChars (l.drop i) = true ∧
      ciStarts selChars (l.drop j) = true := by
  induction fuel generalizing l with
  | zero =>
    rcases l with _ | ⟨c, cs⟩ <;> simp [ciCountF] at h
  | succ fuel ih =>
    rcases l with _ | ⟨c, cs⟩
    · simp [ciCountF] at h
    · by_cases hc : ciStarts selChars (c :: cs) = true
      · simp only [ciCountF, hc, if_true] at h
        obtain ⟨i, hi⟩ := exists_match_of_pos fuel (cs.drop 5) (by omega)
        refine ⟨0, i + 6, by omega, by simpa using hc, ?_⟩
        have hdd : (c :: cs).drop (i + 6) = (cs.drop 5).drop i := by
          rw [List.drop_drop]
          have h6 : i + 6 = (i + 5) + 1 := by omega
          rw [h6, List.drop_succ_cons]
          congr 1
          omega
        rw [hdd]
        exact hi
      · simp only [ciCountF, hc, if_false] at h
        obtain ⟨i, j, hij, hi, hj⟩ := ih cs h
        exact ⟨i + 1, j + 1, by omega,
          by simpa [List.drop_succ_cons] using hi,
          by simpa [List.drop_succ_cons] using hj⟩

lemma two_matches_count (fuel : Nat) (l : List Char) (i j : Nat)
    (hf : l.length ≤ fuel) (hij : i < j)
    (hi : ciStarts selChars (l.drop i) = true)
    (hj : ciStarts selChars (l.drop j) = true) :
    2 ≤ ciCountF fuel l := by
  induction fuel generalizing l i j with
  | zero =>
    rcases l with _ | ⟨c, cs⟩
    · rw [List.drop_nil] at hi
      exact absurd hi (by decide)
    · simp at hf
  | succ fuel ih =>
    rcases l with _ | ⟨c, cs⟩
    · rw [List.drop_nil] at hi
      exact absurd hi (by decide)
    · have hf2 : cs.length ≤ fuel := by simpa using hf
      have hgap : i + 6 ≤ j := match_gap _ i j hij hi hj
      cases i with
      | zero =>
        rw [List.drop_zero] at hi
        have hjm : (c :: cs).drop j = (cs.drop 5).drop (j - 6) := by
          rw [List.drop_drop]
          have hj1 : j = (j - 6 + 5) + 1 := by omega
          rw [hj1, List.drop_succ_cons]
          congr 1
          omega
        have hpos : 1 ≤ ciCountF fuel (cs.drop 5) :=
          ciCountF_pos fuel (cs.drop 5)
            (by simp only [List.length_drop]; omega) (j - 6) (hjm ▸ hj)
        simp only [ciCountF, hi, if_true]
        omega
      | succ i1 =>
        obtain ⟨j1, rfl⟩ : ∃ j1, j = j1 + 1 := ⟨j - 1, by omega⟩
        rw [List.drop_succ_cons] at hi hj
        by_cases hc : ciStarts selChars (c :: cs) = true
        · have hjm : cs.drop j1 = (cs.drop 5).drop (j1 - 5) := by
            rw [List.drop_drop]
            congr 1
            omega
          have hpos : 1 ≤ ciCountF fuel (cs.drop 5) :=
            ciCountF_pos fuel (cs.drop 5)
              (by simp only [List.length_drop]; omega) (j1 - 5) (hjm ▸ hj)
          simp only [ciCountF, hc, if_true]
          omega
        · simp only [ciCountF, hc, if_false]
          exact ih cs i1 j1 hf2 (by omega) hi hj

/-- A case-insensitive match of `SELECT` starting at the head of `l`, as
the spec words it: the next six characters, uppercased, spell `SELECT`.
Bridges the scanner `ciStarts` with the positional formulation. -/
lemma ciStarts_iff_take (p l : List Char) :
    ciStarts p l = true ↔ (l.take p.length).map Char.toUpper = p := by
  induction p generalizing l with
  | nil => simp [ciStarts]
  | cons a ps ih =>
    cases l with
    | nil => simp [ciStarts]
    | cons c cs =>
      simp [ciStarts, ih cs, Bool.and_eq_true, beq_iff_eq]

/-- Follows the spec's words for the subquery heuristic: the text contains
more than one occurrence of the query-start keyword, case-insensitively —
that is, there are two distinct positions in the text at which the next six
characters, uppercased, spell `SELECT`. -/
def specHasSubquery (q : String) : Prop :=
  ∃ i j : Nat, i < j ∧
    ((q.data.drop i).take 6).map Char.toUpper = selChars ∧
    ((q.data.drop j).take 6).map Char.toUpper = selChars

/-- C9: the classifier's subquery tag is exactly the
multiple-query-start heuristic: for every input text, `has_subquery` is
true if and only if the text contains more than one occurrence (at two
distinct positions) of the case-insensitive query-start keyword
`SELECT`. -/
theorem c9_subquery_heuristic (q : String) :
    (classifySQL q).has_subquery = true ↔ specHasSubquery q := by
  have hsel6 : selChars.length = 6 := rfl
  constructor
  · intro h
    have hdec : decide (1 < ciCount q.data) = true := h
    have hcount : 2 ≤ ciCountF q.data.length q.data := by
      have := of_decide_eq_true hdec
      simpa [ciCount] using this
    obtain ⟨i, j, hij, hi, hj⟩ :=
      exists_two_matches q.data.length q.data hcount
    refine ⟨i, j, hij, ?_, ?_⟩
    · have := (ciStarts_iff_take selChars (q.data.drop i)).mp hi
      rwa [hsel6] at this
    · have := (ciStarts_iff_take selChars (q.data.drop j)).mp hj
      rwa [hsel6] at this
  · rintro ⟨i, j, hij, hi, hj⟩
    have hi2 : ciStarts selChars (q.data.drop i) = true := by
      rw [ciStarts_iff_take, hsel6]
      exact hi
    have hj2 : ciStarts selChars (q.data.drop j) = true := by
      rw [ciStarts_iff_take, hsel6]
      exact hj
    have hcount : 2 ≤ ciCountF q.data.length q.data :=
      two_matches_count q.data.length q.data i j le_rfl hij hi2 hj2
    have : 1 < ciCount q.data := by
      simpa [ciCount] using hcount
    exact decide_eq_true this
